import Mathlib

/-!
Shallow embedding of the `cryptolib` TEA block cipher
(`src/cryptolib/algorithms/symmetric/tea.py`, version 0.3.1) together with
the mode taxonomy of `src/cryptolib/modes.py`, and proofs about its
behaviour.

Byte strings are modelled as `List Nat` whose entries are below 256;
Python's masking `& 0xffffffff` is modelled as `% M32` with `M32 = 2 ^ 32`
(`x & 0xffffffff = x % 2 ^ 32` on nonnegative integers, and Python's masking
of a negative difference is ordinary subtraction modulo `2 ^ 32`, modelled by
`submod`); Python's `raise` statements are modelled by `Except`; the optional
`iv` parameter (default `None`) is modelled by `Option (List Nat)`.
-/

namespace Cryptolib

/-- The closed mode taxonomy of `modes.py`.  `otherIVMode` stands for a
subclass of `IVMode` other than `CBC`/`CFB`/`OFB`; `otherMode` stands for a
subclass of `Mode` that is neither `ECB` nor an `IVMode`. -/
inductive Mode
  | ECB
  | CBC
  | CFB
  | OFB
  | otherIVMode
  | otherMode
deriving DecidableEq

/-- `isinstance(mode, modes.IVMode)`: the "requires an IV" capability. -/
def Mode.isIVMode : Mode → Bool
  | .CBC | .CFB | .OFB | .otherIVMode => true
  | .ECB | .otherMode => false

/-- The reachable `raise` sites of `tea.py`, one constructor per distinct
validation failure.  `keyLength` is the `ValueError` of `__init__`;
`ivType` is the `TypeError` raised when `iv` is not `bytes` (in particular
when it is the default `None`); `blockLength` and `ivLength` are the
`ValueError`s of the size checks; `unsupportedMode` is the
`ValueError("Unsupported cipher mode.")` of the final `else`. -/
inductive TeaError
  | keyLength
  | ivType
  | blockLength
  | ivLength
  | unsupportedMode
deriving DecidableEq

instance : DecidableEq (Except TeaError (List Nat)) := fun a b =>
  match a, b with
  | .ok x, .ok y =>
    if h : x = y then isTrue (by rw [h]) else isFalse (by intro hc; cases hc; exact h rfl)
  | .error x, .error y =>
    if h : x = y then isTrue (by rw [h]) else isFalse (by intro hc; cases hc; exact h rfl)
  | .ok _, .error _ => isFalse (fun hc => nomatch hc)
  | .error _, .ok _ => isFalse (fun hc => nomatch hc)

/-- Classification of an error as concerning the key (the spec's
`InvalidKeyError` bucket). -/
def TeaError.isKeyError : TeaError → Bool
  | .keyLength => true
  | _ => false

/-- Classification of an error as concerning the block (the spec's
`InvalidBlockError` bucket). -/
def TeaError.isBlockError : TeaError → Bool
  | .blockLength => true
  | _ => false

/-- Classification of an error as concerning the IV (the spec's
`InvalidIVError` bucket: "IV is not byte data, or missing or not exactly
8 bytes"). -/
def TeaError.isIVError : TeaError → Bool
  | .ivType | .ivLength => true
  | _ => false

/-- Classification of an error as concerning the mode (the spec's
`InvalidModeError` bucket). -/
def TeaError.isModeError : TeaError → Bool
  | .unsupportedMode => true
  | _ => false

/-- A list is byte data: every entry is below 256. -/
def Bytes (l : List Nat) : Prop := ∀ x ∈ l, x < 256

instance (l : List Nat) : Decidable (Bytes l) :=
  inferInstanceAs (Decidable (∀ x ∈ l, x < 256))

namespace TEA

/-- `TEA.ROUNDS = 32`. -/
def ROUNDS : Nat := 32

/-- `TEA.DELTA = 0x9e3779b9`, the golden-ratio constant. -/
def DELTA : Nat := 0x9e3779b9

/-- Modulus corresponding to the mask `0xffffffff`. -/
def M32 : Nat := 2 ^ 32

/-- `key_size` property: 128 bits. -/
def key_size : Nat := 128

/-- `block_size` property: 64 bits. -/
def block_size : Nat := 64

/-- One big-endian 32-bit word read at byte offset `i`, as done by
`struct.unpack("!2I", block)`. -/
def word32At (b : List Nat) (i : Nat) : Nat :=
  b.get! i * 2 ^ 24 + b.get! (i + 1) * 2 ^ 16 + b.get! (i + 2) * 2 ^ 8 + b.get! (i + 3)

/-- `v0, v1 = struct.unpack("!2I", block)`. -/
def unpack2I (b : List Nat) : Nat × Nat := (word32At b 0, word32At b 4)

/-- The four big-endian bytes of a 32-bit word, as packed by
`struct.pack("!2I", ...)`. -/
def word32Bytes (w : Nat) : List Nat :=
  [w / 2 ^ 24 % 256, w / 2 ^ 16 % 256, w / 2 ^ 8 % 256, w % 256]

/-- `struct.pack("!2I", v0, v1)`. -/
def pack2I (v : Nat × Nat) : List Nat := word32Bytes v.1 ++ word32Bytes v.2

/-- `bytes(a ^ b for a, b in zip(xs, ys))`. -/
def zipXor (xs ys : List Nat) : List Nat := List.zipWith (fun a b => a ^^^ b) xs ys

/-- Subtraction modulo `2 ^ 32`: Python's `(a - b) & 0xffffffff`. -/
def submod (a b : Nat) : Nat := (a + (M32 - b % M32)) % M32

/-- The masked mixing expression
`((x << 4) + ka ^ (x + s) ^ (x >> 5) + kb) & 0xffffffff` shared by both
half-round updates (`ka`, `kb` are the two key bytes used by the update). -/
def mix (ka kb s x : Nat) : Nat :=
  (((x <<< 4) + ka) ^^^ (x + s) ^^^ ((x >>> 5) + kb)) % M32

/-- One encryption round body (after `s` has been advanced): `v0` is updated
from the current `v1` with key bytes 0 and 1, then `v1` is updated from the
already-updated `v0` with key bytes 2 and 3; both sums are masked. -/
def encRound (k0 k1 k2 k3 s : Nat) (v : Nat × Nat) : Nat × Nat :=
  let a := (v.1 + mix k0 k1 s v.2) % M32
  let b := (v.2 + mix k2 k3 s a) % M32
  (a, b)

/-- One decryption round body (before `s` is decremented): `v1` is updated
from the current `v0` with key bytes 2 and 3, then `v0` is updated from the
already-updated `v1` with key bytes 0 and 1; both differences are masked. -/
def decRound (k0 k1 k2 k3 s : Nat) (v : Nat × Nat) : Nat × Nat :=
  let b := submod v.2 (mix k2 k3 s v.1)
  let a := submod v.1 (mix k0 k1 s b)
  (a, b)

/-- The encryption `for` loop: each iteration first advances `s` by `DELTA`
(masked) and then runs the round body with the new `s`. -/
def encLoop (k0 k1 k2 k3 : Nat) : Nat → Nat → Nat × Nat → Nat × Nat
  | 0, _, v => v
  | n + 1, s, v =>
    let s2 := (s + DELTA) % M32
    encLoop k0 k1 k2 k3 n s2 (encRound k0 k1 k2 k3 s2 v)

/-- The decryption `for` loop: each iteration runs the round body with the
current `s` and then decrements `s` by `DELTA` (masked). -/
def decLoop (k0 k1 k2 k3 : Nat) : Nat → Nat → Nat × Nat → Nat × Nat
  | 0, _, v => v
  | n + 1, s, v =>
    decLoop k0 k1 k2 k3 n (submod s DELTA) (decRound k0 k1 k2 k3 s v)

/-- The raw encryption transform shared by `encrypt_block` (after the mode
pre-processing) and `encrypt_iv`: unpack, 32 rounds starting from `s = 0`,
pack. -/
def coreEnc (key block : List Nat) : List Nat :=
  pack2I (encLoop (key.get! 0) (key.get! 1) (key.get! 2) (key.get! 3)
    ROUNDS 0 (unpack2I block))

/-- The raw decryption transform of `decrypt_block`: unpack, 32 rounds
starting from `s = 0xC6EF3720`, pack. -/
def coreDec (key block : List Nat) : List Nat :=
  pack2I (decLoop (key.get! 0) (key.get! 1) (key.get! 2) (key.get! 3)
    ROUNDS 0xC6EF3720 (unpack2I block))

/-- `TEA.__init__`: the key must be exactly `key_size // 8 = 16` bytes.
(The `isinstance(key, bytes)` check is subsumed by the `List Nat` type.) -/
def init (key : List Nat) : Except TeaError (List Nat) :=
  if key.length ≠ key_size / 8 then .error .keyLength else .ok key

/-- `TEA.encrypt_iv`: validates that the IV is 8 bytes, then applies the raw
encryption transform. -/
def encrypt_iv (key iv : List Nat) : Except TeaError (List Nat) :=
  if iv.length ≠ block_size / 8 then .error .ivLength
  else .ok (coreEnc key iv)

/-- `TEA.encrypt_block`.  The `isinstance(iv, bytes)` check rejects the
default `iv=None` (modelled by `none`) before anything else that involves
the mode; then the block length and — for `IVMode`s — the IV length are
checked; then the mode pre-processing XORs the block (CBC: with the IV,
CFB/OFB: with the encrypted IV); finally the raw encryption rounds run on
the resulting block in every supported mode. -/
def encrypt_block (key block : List Nat) (mode : Mode) (iv : Option (List Nat)) :
    Except TeaError (List Nat) :=
  match iv with
  | none => .error .ivType
  | some ivb =>
    if block.length ≠ block_size / 8 then .error .blockLength
    else if mode.isIVMode = true ∧ (ivb.length = 0 ∨ ivb.length ≠ block_size / 8) then
      .error .ivLength
    else
      match mode with
      | .CBC => .ok (coreEnc key (zipXor block ivb))
      | .CFB | .OFB =>
        match encrypt_iv key ivb with
        | .ok e => .ok (coreEnc key (zipXor block e))
        | .error err => .error err
      | .ECB => .ok (coreEnc key block)
      | _ => .error .unsupportedMode

/-- `TEA.decrypt_block`.  Validation mirrors `encrypt_block`; the raw
decryption rounds run on the input block unconditionally, and the mode
post-processing then XORs (CBC: decrypted result with the IV; CFB/OFB: the
*original input block* with the encrypted IV, discarding the decryption
result). -/
def decrypt_block (key block : List Nat) (mode : Mode) (iv : Option (List Nat)) :
    Except TeaError (List Nat) :=
  match iv with
  | none => .error .ivType
  | some ivb =>
    if block.length ≠ block_size / 8 then .error .blockLength
    else if mode.isIVMode = true ∧ (ivb.length = 0 ∨ ivb.length ≠ block_size / 8) then
      .error .ivLength
    else
      let decrypted := coreDec key block
      match mode with
      | .CBC => .ok (zipXor decrypted ivb)
      | .CFB | .OFB =>
        match encrypt_iv key ivb with
        | .ok e => .ok (zipXor block e)
        | .error err => .error err
      | .ECB => .ok decrypted
      | _ => .error .unsupportedMode

/-- A call to one of the public operations of a cipher instance, with its
arguments. -/
inductive TeaOp
  | encB (block : List Nat) (mode : Mode) (iv : Option (List Nat))
  | decB (block : List Nat) (mode : Mode) (iv : Option (List Nat))
  | encIV (iv : List Nat)

/-- State-passing form of a method call on a cipher instance whose state is
its stored key: the result of the call together with the instance state
after the call.  Every method body of the source only reads `self.key`
(indices 0–3) and binds locals; no statement assigns to `self`, so the
translated final state is the incoming state. -/
def runOp (key : List Nat) : TeaOp → Except TeaError (List Nat) × List Nat
  | .encB b m iv => (encrypt_block key b m iv, key)
  | .decB b m iv => (decrypt_block key b m iv, key)
  | .encIV iv => (encrypt_iv key iv, key)

/-- Modelled from the spec: the per-round mixing expression of §4.3,
`((x<<4) + ka) XOR (x + sum) XOR ((x>>5) + kb)` with each arithmetic
operation taken mod 2³².  Used to compare the spec's round description with
the source's masking, which is applied once to the whole expression. -/
def specMix (ka kb s x : Nat) : Nat :=
  (((x <<< 4) % M32 + ka) % M32) ^^^ ((x + s) % M32) ^^^ (((x >>> 5) + kb) % M32)

/-- Modelled from the spec: one encryption round of §4.3 — update `v0` from
the current `v1` (key bytes 0, 1), then `v1` from the already-updated `v0`
(key bytes 2, 3), all arithmetic mod 2³². -/
def specEncRound (k0 k1 k2 k3 s : Nat) (v : Nat × Nat) : Nat × Nat :=
  let a := (v.1 + specMix k0 k1 s v.2) % M32
  let b := (v.2 + specMix k2 k3 s a) % M32
  (a, b)

/-- Modelled from the spec: one decryption round of §4.3 — restore `v1`
first (subtracting the expression built from the current `v0`), then
restore `v0` (subtracting the expression built from the just-restored
`v1`), all arithmetic mod 2³². -/
def specDecRound (k0 k1 k2 k3 s : Nat) (v : Nat × Nat) : Nat × Nat :=
  let b := submod v.2 (specMix k2 k3 s v.1)
  let a := submod v.1 (specMix k0 k1 s b)
  (a, b)

/-- Modelled from the spec: the encryption round sequence — the running sum
starts at 0 and is advanced by `DELTA` mod 2³² before each round. -/
def specEncLoop (k0 k1 k2 k3 : Nat) : Nat → Nat → Nat × Nat → Nat × Nat
  | 0, _, v => v
  | n + 1, s, v =>
    let s2 := (s + DELTA) % M32
    specEncLoop k0 k1 k2 k3 n s2 (specEncRound k0 k1 k2 k3 s2 v)

/-- Modelled from the spec: the decryption round sequence — the running sum
starts at the given value and decreases by `DELTA` mod 2³² after each
round. -/
def specDecLoop (k0 k1 k2 k3 : Nat) : Nat → Nat → Nat × Nat → Nat × Nat
  | 0, _, v => v
  | n + 1, s, v =>
    specDecLoop k0 k1 k2 k3 n (submod s DELTA) (specDecRound k0 k1 k2 k3 s v)

/-- Modelled from the spec: the full encryption core transform of §4.3 —
interpret the 8 bytes as two unsigned 32-bit big-endian words, run exactly
32 rounds with the sum starting at 0, repack big-endian. -/
def specEncCore (k0 k1 k2 k3 : Nat) (block : List Nat) : List Nat :=
  pack2I (specEncLoop k0 k1 k2 k3 32 0 (unpack2I block))

/-- Modelled from the spec: the full decryption core transform of §4.3 —
as `specEncCore` but with the decryption rounds and the sum starting at
`0xC6EF3720`. -/
def specDecCore (k0 k1 k2 k3 : Nat) (block : List Nat) : List Nat :=
  pack2I (specDecLoop k0 k1 k2 k3 32 0xC6EF3720 (unpack2I block))

/-- The successive `s` values used by the encryption rounds, starting after
`s`. -/
def encSums (s : Nat) : Nat → List Nat
  | 0 => []
  | n + 1 =>
    let s2 := (s + DELTA) % M32
    s2 :: encSums s2 n

/-- The successive `s` values used by the decryption rounds, starting at
`s`. -/
def decSums (s : Nat) : Nat → List Nat
  | 0 => []
  | n + 1 => s :: decSums (submod s DELTA) n

end TEA

/-- Key of the spec's concrete scenarios: bytes 0x00..0x0F. -/
def sampleKey : List Nat := [0, 1, 2, 3, 4, 5, 6, 7, 8, 9, 10, 11, 12, 13, 14, 15]

/-- A key agreeing with `sampleKey` on bytes 0–3 and different after. -/
def sampleKeyB : List Nat := [0, 1, 2, 3, 200, 201, 202, 203, 204, 205, 206, 207, 208, 209, 210, 211]

/-- Block of the spec's concrete scenario 1: bytes 0x01..0x08. -/
def sampleBlock : List Nat := [1, 2, 3, 4, 5, 6, 7, 8]

/-- An 8-byte all-zero IV. -/
def zeros8 : List Nat := [0, 0, 0, 0, 0, 0, 0, 0]

/-- Block of the spec's concrete scenario 3: 8 bytes 0xFF. -/
def ff8 : List Nat := [255, 255, 255, 255, 255, 255, 255, 255]

end Cryptolib

namespace Cryptolib

namespace TEA

theorem M32_pos : 0 < M32 := by norm_num [M32]

theorem mix_lt (ka kb s x : Nat) : mix ka kb s x < M32 := Nat.mod_lt _ M32_pos

theorem submod_cancel (a f : Nat) (ha : a < M32) (hf : f < M32) :
    submod ((a + f) % M32) f = a := by
  unfold submod
  rw [Nat.mod_eq_of_lt hf, Nat.mod_add_mod]
  have hle : f ≤ M32 := Nat.le_of_lt hf
  have h1 : a + f + (M32 - f) = a + M32 := by omega
  rw [h1, Nat.add_mod_right, Nat.mod_eq_of_lt ha]

theorem decRound_encRound (k0 k1 k2 k3 s : Nat) (v : Nat × Nat)
    (h0 : v.1 < M32) (h1 : v.2 < M32) :
    decRound k0 k1 k2 k3 s (encRound k0 k1 k2 k3 s v) = v := by
  obtain ⟨v0, v1⟩ := v
  simp only [encRound, decRound]
  rw [submod_cancel v1 _ h1 (mix_lt ..), submod_cancel v0 _ h0 (mix_lt ..)]

theorem encRound_lt (k0 k1 k2 k3 s : Nat) (v : Nat × Nat) :
    (encRound k0 k1 k2 k3 s v).1 < M32 ∧ (encRound k0 k1 k2 k3 s v).2 < M32 := by
  simp only [encRound]
  exact ⟨Nat.mod_lt _ M32_pos, Nat.mod_lt _ M32_pos⟩

theorem encLoop_eq_foldl (k0 k1 k2 k3 : Nat) :
    ∀ (n s : Nat) (v : Nat × Nat),
      encLoop k0 k1 k2 k3 n s v
        = (encSums s n).foldl (fun w t => encRound k0 k1 k2 k3 t w) v := by
  intro n
  induction n with
  | zero => intro s v; rfl
  | succ m ih =>
    intro s v
    simp only [encLoop, encSums, List.foldl_cons]
    exact ih _ _

theorem decLoop_eq_foldl (k0 k1 k2 k3 : Nat) :
    ∀ (n s : Nat) (v : Nat × Nat),
      decLoop k0 k1 k2 k3 n s v
        = (decSums s n).foldl (fun w t => decRound k0 k1 k2 k3 t w) v := by
  intro n
  induction n with
  | zero => intro s v; rfl
  | succ m ih =>
    intro s v
    simp only [decLoop, decSums, List.foldl_cons]
    exact ih _ _

theorem sums_rev : decSums 0xC6EF3720 ROUNDS = (encSums 0 ROUNDS).reverse := by decide

theorem foldl_enc_dec (k0 k1 k2 k3 : Nat) :
    ∀ (l : List Nat) (v : Nat × Nat), v.1 < M32 → v.2 < M32 →
      (l.reverse).foldl (fun w t => decRound k0 k1 k2 k3 t w)
        (l.foldl (fun w t => encRound k0 k1 k2 k3 t w) v) = v := by
  intro l
  induction l with
  | nil => intro v _ _; rfl
  | cons a t ih =>
    intro v h0 h1
    simp only [List.reverse_cons, List.foldl_append, List.foldl_cons, List.foldl_nil]
    rw [ih (encRound k0 k1 k2 k3 a v) (encRound_lt ..).1 (encRound_lt ..).2]
    exact decRound_encRound k0 k1 k2 k3 a v h0 h1

theorem decLoop_encLoop (k0 k1 k2 k3 : Nat) (v : Nat × Nat)
    (h0 : v.1 < M32) (h1 : v.2 < M32) :
    decLoop k0 k1 k2 k3 ROUNDS 0xC6EF3720 (encLoop k0 k1 k2 k3 ROUNDS 0 v) = v := by
  rw [encLoop_eq_foldl, decLoop_eq_foldl, sums_rev]
  exact foldl_enc_dec k0 k1 k2 k3 _ v h0 h1

theorem encLoop_lt (k0 k1 k2 k3 : Nat) :
    ∀ (n s : Nat) (v : Nat × Nat), v.1 < M32 → v.2 < M32 →
      (encLoop k0 k1 k2 k3 n s v).1 < M32 ∧ (encLoop k0 k1 k2 k3 n s v).2 < M32 := by
  intro n
  induction n with
  | zero => intro s v h0 h1; exact ⟨h0, h1⟩
  | succ m ih =>
    intro s v h0 h1
    simp only [encLoop]
    exact ih _ _ (encRound_lt ..).1 (encRound_lt ..).2

theorem exists_eight (l : List Nat) (h : l.length = 8) :
    ∃ a b c d e f g i, l = [a, b, c, d, e, f, g, i] := by
  rcases l with _ | ⟨a, _ | ⟨b, _ | ⟨c, _ | ⟨d, _ | ⟨e, _ | ⟨f, _ | ⟨g, _ | ⟨i, _ | ⟨j, t⟩⟩⟩⟩⟩⟩⟩⟩⟩
  · simp at h
  · simp at h
  · simp at h
  · simp at h
  · simp at h
  · simp at h
  · simp at h
  · simp at h
  · exact ⟨a, b, c, d, e, f, g, i, rfl⟩
  · simp at h

theorem pack_unpack (l : List Nat) (h8 : l.length = 8) (hb : Bytes l) :
    pack2I (unpack2I l) = l := by
  obtain ⟨a, b, c, d, e, f, g, i, rfl⟩ := exists_eight l h8
  have ha := hb a (by simp)
  have hbb := hb b (by simp)
  have hc := hb c (by simp)
  have hd := hb d (by simp)
  have he := hb e (by simp)
  have hf := hb f (by simp)
  have hg := hb g (by simp)
  have hi := hb i (by simp)
  simp [unpack2I, word32At, pack2I, word32Bytes, List.get!]
  omega

theorem unpack_pack (v : Nat × Nat) (h0 : v.1 < M32) (h1 : v.2 < M32) :
    unpack2I (pack2I v) = v := by
  obtain ⟨w0, w1⟩ := v
  simp only [M32] at h0 h1
  simp [unpack2I, word32At, pack2I, word32Bytes, List.get!]
  omega

theorem unpack_lt (l : List Nat) (h8 : l.length = 8) (hb : Bytes l) :
    (unpack2I l).1 < M32 ∧ (unpack2I l).2 < M32 := by
  obtain ⟨a, b, c, d, e, f, g, i, rfl⟩ := exists_eight l h8
  have ha := hb a (by simp)
  have hbb := hb b (by simp)
  have hc := hb c (by simp)
  have hd := hb d (by simp)
  have he := hb e (by simp)
  have hf := hb f (by simp)
  have hg := hb g (by simp)
  have hi := hb i (by simp)
  simp [unpack2I, word32At, List.get!, M32]
  omega

theorem coreDec_coreEnc (key block : List Nat) (h8 : block.length = 8)
    (hb : Bytes block) : coreDec key (coreEnc key block) = block := by
  have hv := unpack_lt block h8 hb
  have hw := encLoop_lt (key.get! 0) (key.get! 1) (key.get! 2) (key.get! 3)
    ROUNDS 0 (unpack2I block) hv.1 hv.2
  unfold coreEnc coreDec
  rw [unpack_pack _ hw.1 hw.2, decLoop_encLoop _ _ _ _ _ hv.1 hv.2]
  exact pack_unpack block h8 hb

theorem xor_mod_two_pow (a b n : Nat) :
    (a ^^^ b) % 2 ^ n = a % 2 ^ n ^^^ b % 2 ^ n := by
  apply Nat.eq_of_testBit_eq
  intro i
  simp only [Nat.testBit_mod_two_pow, Nat.testBit_xor]
  cases Decidable.em (i < n) with
  | inl h => simp [h]
  | inr h => simp [h]

theorem specMix_eq_mix (ka kb s x : Nat) : specMix ka kb s x = mix ka kb s x := by
  unfold specMix mix M32
  rw [xor_mod_two_pow, xor_mod_two_pow, Nat.mod_add_mod]

theorem specEncRound_eq (k0 k1 k2 k3 s : Nat) (v : Nat × Nat) :
    specEncRound k0 k1 k2 k3 s v = encRound k0 k1 k2 k3 s v := by
  simp only [specEncRound, encRound, specMix_eq_mix]

theorem specDecRound_eq (k0 k1 k2 k3 s : Nat) (v : Nat × Nat) :
    specDecRound k0 k1 k2 k3 s v = decRound k0 k1 k2 k3 s v := by
  simp only [specDecRound, decRound, specMix_eq_mix]

theorem specEncLoop_eq (k0 k1 k2 k3 : Nat) :
    ∀ (n s : Nat) (v : Nat × Nat),
      specEncLoop k0 k1 k2 k3 n s v = encLoop k0 k1 k2 k3 n s v := by
  intro n
  induction n with
  | zero => intro s v; rfl
  | succ m ih =>
    intro s v
    simp only [specEncLoop, encLoop, specEncRound_eq]
    exact ih _ _

theorem specDecLoop_eq (k0 k1 k2 k3 : Nat) :
    ∀ (n s : Nat) (v : Nat × Nat),
      specDecLoop k0 k1 k2 k3 n s v = decLoop k0 k1 k2 k3 n s v := by
  intro n
  induction n with
  | zero => intro s v; rfl
  | succ m ih =>
    intro s v
    simp only [specDecLoop, decLoop, specDecRound_eq]
    exact ih _ _

theorem coreEnc_eq_spec (key block : List Nat) :
    coreEnc key block
      = specEncCore (key.get! 0) (key.get! 1) (key.get! 2) (key.get! 3) block := by
  unfold coreEnc specEncCore ROUNDS
  rw [specEncLoop_eq]

theorem coreDec_eq_spec (key block : List Nat) :
    coreDec key block
      = specDecCore (key.get! 0) (key.get! 1) (key.get! 2) (key.get! 3) block := by
  unfold coreDec specDecCore ROUNDS
  rw [specDecLoop_eq]

end TEA

end Cryptolib

namespace Cryptolib

/-- C6: for every valid key, 8-byte block and 8-byte IV, `encrypt_block` in
CBC mode equals the encryption core transform applied to `block XOR iv`, and
`decrypt_block` in CBC mode equals the decryption core transform of the
block XOR-ed with the IV. -/
theorem claim_C6 (key block iv : List Nat) (hb : block.length = 8)
    (hiv : iv.length = 8) :
    TEA.encrypt_block key block .CBC (some iv)
        = .ok (TEA.coreEnc key (TEA.zipXor block iv)) ∧
    TEA.decrypt_block key block .CBC (some iv)
        = .ok (TEA.zipXor (TEA.coreDec key block) iv) := by
  refine ⟨?_, ?_⟩ <;>
    simp [TEA.encrypt_block, TEA.decrypt_block, TEA.block_size, Mode.isIVMode, hb, hiv]

/-- C6 witness at the spec's concrete key, block and all-zero IV. -/
theorem claim_C6_witness :
    TEA.encrypt_block sampleKey sampleBlock .CBC (some zeros8)
        = .ok (TEA.coreEnc sampleKey (TEA.zipXor sampleBlock zeros8)) ∧
    TEA.decrypt_block sampleKey sampleBlock .CBC (some zeros8)
        = .ok (TEA.zipXor (TEA.coreDec sampleKey sampleBlock) zeros8) :=
  claim_C6 sampleKey sampleBlock zeros8 (by decide) (by decide)

/-- C10: in ECB mode both operations accept an IV that is byte data of any
length (here: arbitrary lists, including the empty one) and the result is
the IV-independent core transform of the block, so any two IVs give equal
outputs. -/
theorem claim_C10 (key block iv1 iv2 : List Nat) (hb : block.length = 8) :
    TEA.encrypt_block key block .ECB (some iv1) = .ok (TEA.coreEnc key block) ∧
    TEA.encrypt_block key block .ECB (some iv2) = .ok (TEA.coreEnc key block) ∧
    TEA.decrypt_block key block .ECB (some iv1) = .ok (TEA.coreDec key block) ∧
    TEA.decrypt_block key block .ECB (some iv2) = .ok (TEA.coreDec key block) := by
  refine ⟨?_, ?_, ?_, ?_⟩ <;>
    simp [TEA.encrypt_block, TEA.decrypt_block, TEA.block_size, Mode.isIVMode, hb]

/-- C10 witness: the empty IV and a 3-byte IV both succeed in ECB mode and
give the same ciphertext. -/
theorem claim_C10_witness :
    TEA.encrypt_block sampleKey sampleBlock .ECB (some []) = .ok (TEA.coreEnc sampleKey sampleBlock) ∧
    TEA.encrypt_block sampleKey sampleBlock .ECB (some [9, 9, 9]) = .ok (TEA.coreEnc sampleKey sampleBlock) ∧
    TEA.decrypt_block sampleKey sampleBlock .ECB (some []) = .ok (TEA.coreDec sampleKey sampleBlock) ∧
    TEA.decrypt_block sampleKey sampleBlock .ECB (some [9, 9, 9]) = .ok (TEA.coreDec sampleKey sampleBlock) :=
  claim_C10 sampleKey sampleBlock [] [9, 9, 9] (by decide)

/-- C7: a key that is not 16 bytes is rejected with a key error by the
constructor; an 8-byte-violating block is rejected with a block error; CBC
with the IV absent is rejected with an IV error; an unrecognized mode
variant is rejected with a mode error. -/
theorem claim_C7 (badkey key block7 block8 ivb : List Nat) (mode : Mode)
    (hk : badkey.length ≠ 16) (h7 : block7.length = 7) (h8 : block8.length = 8) :
    (∃ e, TEA.init badkey = .error e ∧ e.isKeyError = true) ∧
    (∃ e, TEA.encrypt_block key block7 mode (some ivb) = .error e ∧ e.isBlockError = true) ∧
    (∃ e, TEA.encrypt_block key block8 .CBC none = .error e ∧ e.isIVError = true) ∧
    (∃ e, TEA.encrypt_block key block8 .otherMode (some ivb) = .error e ∧ e.isModeError = true) := by
  refine ⟨⟨.keyLength, ?_, rfl⟩, ⟨.blockLength, ?_, rfl⟩, ⟨.ivType, rfl, rfl⟩,
    ⟨.unsupportedMode, ?_, rfl⟩⟩
  · simp [TEA.init, TEA.key_size, hk]
  · simp [TEA.encrypt_block, TEA.block_size, h7]
  · simp [TEA.encrypt_block, TEA.block_size, Mode.isIVMode, h8]

/-- C7 witness with a 15-byte key, a 7-byte block, an 8-byte block and mode
ECB for the block-length conjunct. -/
theorem claim_C7_witness :
    (∃ e, TEA.init [0, 1, 2, 3, 4, 5, 6, 7, 8, 9, 10, 11, 12, 13, 14] = .error e ∧ e.isKeyError = true) ∧
    (∃ e, TEA.encrypt_block sampleKey [1, 2, 3, 4, 5, 6, 7] .ECB (some zeros8) = .error e ∧ e.isBlockError = true) ∧
    (∃ e, TEA.encrypt_block sampleKey sampleBlock .CBC none = .error e ∧ e.isIVError = true) ∧
    (∃ e, TEA.encrypt_block sampleKey sampleBlock .otherMode (some zeros8) = .error e ∧ e.isModeError = true) :=
  claim_C7 [0, 1, 2, 3, 4, 5, 6, 7, 8, 9, 10, 11, 12, 13, 14] sampleKey
    [1, 2, 3, 4, 5, 6, 7] sampleBlock zeros8 .ECB (by decide) (by decide) (by decide)

/-- C8: every operation of a cipher instance leaves the instance state (its
stored key, the only per-instance state) unchanged, and a call made after
any other call behaves exactly as the same call made on the fresh
instance. -/
theorem claim_C8 (key : List Nat) (o1 o2 : TEA.TeaOp) :
    (TEA.runOp key o1).2 = key ∧
    TEA.runOp (TEA.runOp key o1).2 o2 = TEA.runOp key o2 := by
  cases o1 <;> exact ⟨rfl, rfl⟩

/-- C2 (code bug): with mode ECB, whose `requires_iv` capability is false,
calling `encrypt_block` or `decrypt_block` with the IV argument absent does
not succeed: the `isinstance(iv, bytes)` check raises a `TypeError` for the
default `None` before the mode is ever consulted, contradicting the
docstring "If no IV is required (e.g., for ECB), this parameter can be
`None`". -/
theorem claim_C2_failing :
    TEA.encrypt_block sampleKey sampleBlock .ECB none = .error .ivType ∧
    TEA.decrypt_block sampleKey sampleBlock .ECB none = .error .ivType :=
  ⟨rfl, rfl⟩

end Cryptolib

namespace Cryptolib

/-- C3: the encryption core transform (as exposed by `encrypt_block` in ECB
mode and by `encrypt_iv`) coincides with the spec's description: two
big-endian unsigned 32-bit words, exactly 32 rounds, sum advanced by
`0x9E3779B9` mod 2³² before each round, `v0` updated from the current `v1`
with key bytes 0 and 1, `v1` updated from the already-updated `v0` with key
bytes 2 and 3, all arithmetic mod 2³², result repacked big-endian
(`specEncCore`). -/
theorem claim_C3 (key block ivAny ivE : List Nat) (h8 : block.length = 8)
    (hivE : ivE.length = 8) :
    TEA.encrypt_block key block .ECB (some ivAny)
        = .ok (TEA.specEncCore (key.get! 0) (key.get! 1) (key.get! 2) (key.get! 3) block) ∧
    TEA.encrypt_iv key ivE
        = .ok (TEA.specEncCore (key.get! 0) (key.get! 1) (key.get! 2) (key.get! 3) ivE) ∧
    TEA.ROUNDS = 32 ∧ TEA.DELTA = 0x9E3779B9 := by
  refine ⟨?_, ?_, rfl, rfl⟩
  · rw [← TEA.coreEnc_eq_spec]
    simp [TEA.encrypt_block, TEA.block_size, Mode.isIVMode, h8]
  · rw [← TEA.coreEnc_eq_spec]
    simp [TEA.encrypt_iv, TEA.block_size, hivE]

/-- C3 witness at the spec's concrete key and block. -/
theorem claim_C3_witness :
    TEA.encrypt_block sampleKey sampleBlock .ECB (some zeros8)
        = .ok (TEA.specEncCore (sampleKey.get! 0) (sampleKey.get! 1)
            (sampleKey.get! 2) (sampleKey.get! 3) sampleBlock) ∧
    TEA.encrypt_iv sampleKey zeros8
        = .ok (TEA.specEncCore (sampleKey.get! 0) (sampleKey.get! 1)
            (sampleKey.get! 2) (sampleKey.get! 3) zeros8) ∧
    TEA.ROUNDS = 32 ∧ TEA.DELTA = 0x9E3779B9 :=
  claim_C3 sampleKey sampleBlock zeros8 zeros8 (by decide) (by decide)

/-- C4: the decryption core transform of `decrypt_block` coincides with the
spec's description (`specDecCore`): the sum starts at `0xC6EF3720`, which is
`32·DELTA mod 2³²`, and decreases by `DELTA` each round; each round first
restores `v1` (subtracting the expression built from the current `v0`, key
bytes 2 and 3) and then `v0` (subtracting the expression built from the
just-restored `v1`, key bytes 0 and 1), all mod 2³²; and this exactly
inverts the encryption rounds: the core decryption of a core-encrypted
8-byte block returns the original block. -/
theorem claim_C4 (key block iv : List Nat) (h8 : block.length = 8)
    (hb : Bytes block) :
    TEA.coreDec key block
        = TEA.specDecCore (key.get! 0) (key.get! 1) (key.get! 2) (key.get! 3) block ∧
    TEA.decrypt_block key block .ECB (some iv)
        = .ok (TEA.specDecCore (key.get! 0) (key.get! 1) (key.get! 2) (key.get! 3) block) ∧
    (0xC6EF3720 : Nat) = 32 * TEA.DELTA % TEA.M32 ∧
    TEA.coreDec key (TEA.coreEnc key block) = block := by
  refine ⟨TEA.coreDec_eq_spec key block, ?_, by norm_num [TEA.DELTA, TEA.M32],
    TEA.coreDec_coreEnc key block h8 hb⟩
  rw [← TEA.coreDec_eq_spec]
  simp [TEA.decrypt_block, TEA.block_size, Mode.isIVMode, h8]

/-- C4 witness at the spec's concrete key and block. -/
theorem claim_C4_witness :
    TEA.coreDec sampleKey sampleBlock
        = TEA.specDecCore (sampleKey.get! 0) (sampleKey.get! 1)
            (sampleKey.get! 2) (sampleKey.get! 3) sampleBlock ∧
    TEA.decrypt_block sampleKey sampleBlock .ECB (some zeros8)
        = .ok (TEA.specDecCore (sampleKey.get! 0) (sampleKey.get! 1)
            (sampleKey.get! 2) (sampleKey.get! 3) sampleBlock) ∧
    (0xC6EF3720 : Nat) = 32 * TEA.DELTA % TEA.M32 ∧
    TEA.coreDec sampleKey (TEA.coreEnc sampleKey sampleBlock) = sampleBlock :=
  claim_C4 sampleKey sampleBlock zeros8 (by decide) (by decide)

/-- C9: two valid 16-byte keys that agree on bytes 0–3 produce identical
results from `encrypt_block`, `decrypt_block` and `encrypt_iv` on every
block, mode and IV: key bytes 4–15 never influence any output. -/
theorem claim_C9 (k1 k2 block ivb : List Nat) (mode : Mode)
    (iv : Option (List Nat)) (_hl1 : k1.length = 16) (_hl2 : k2.length = 16)
    (hagree : k1.get! 0 = k2.get! 0 ∧ k1.get! 1 = k2.get! 1 ∧
      k1.get! 2 = k2.get! 2 ∧ k1.get! 3 = k2.get! 3) :
    TEA.encrypt_block k1 block mode iv = TEA.encrypt_block k2 block mode iv ∧
    TEA.decrypt_block k1 block mode iv = TEA.decrypt_block k2 block mode iv ∧
    TEA.encrypt_iv k1 ivb = TEA.encrypt_iv k2 ivb := by
  obtain ⟨h0, h1, h2, h3⟩ := hagree
  have hce : ∀ b, TEA.coreEnc k1 b = TEA.coreEnc k2 b := by
    intro b; unfold TEA.coreEnc; rw [h0, h1, h2, h3]
  have hcd : ∀ b, TEA.coreDec k1 b = TEA.coreDec k2 b := by
    intro b; unfold TEA.coreDec; rw [h0, h1, h2, h3]
  have hiv : ∀ b, TEA.encrypt_iv k1 b = TEA.encrypt_iv k2 b := by
    intro b; unfold TEA.encrypt_iv; rw [hce]
  refine ⟨?_, ?_, hiv ivb⟩
  · cases iv with
    | none => rfl
    | some ivc => simp only [TEA.encrypt_block, hce, hiv]
  · cases iv with
    | none => rfl
    | some ivc => simp only [TEA.decrypt_block, hcd, hce, hiv]

/-- C9 witness: `sampleKey` and `sampleKeyB` differ in every byte from
index 4 on, yet encrypt, decrypt and IV-encrypt identically. -/
theorem claim_C9_witness :
    TEA.encrypt_block sampleKey sampleBlock .CBC (some zeros8)
        = TEA.encrypt_block sampleKeyB sampleBlock .CBC (some zeros8) ∧
    TEA.decrypt_block sampleKey sampleBlock .CBC (some zeros8)
        = TEA.decrypt_block sampleKeyB sampleBlock .CBC (some zeros8) ∧
    TEA.encrypt_iv sampleKey zeros8 = TEA.encrypt_iv sampleKeyB zeros8 :=
  claim_C9 sampleKey sampleKeyB sampleBlock zeros8 .CBC (some zeros8)
    (by decide) (by decide) (by decide)

set_option maxRecDepth 10000 in
/-- C1 (code bug): decryption composed with encryption under the same key,
mode and IV does not return the original block for the feedback modes: for
CFB (and OFB) `encrypt_block` still runs the TEA core rounds on
`block XOR encrypt_iv(iv)` whereas `decrypt_block` returns
`block XOR encrypt_iv(iv)` discarding its own core-decryption result, so
the round-trip property claimed for every recognized mode fails. -/
theorem claim_C1_failing :
    (TEA.encrypt_block sampleKey sampleBlock .CFB (some zeros8)).bind
        (fun c => TEA.decrypt_block sampleKey c .CFB (some zeros8)) ≠ .ok sampleBlock ∧
    (TEA.encrypt_block sampleKey sampleBlock .OFB (some zeros8)).bind
        (fun c => TEA.decrypt_block sampleKey c .OFB (some zeros8)) ≠ .ok sampleBlock := by
  exact ⟨by decide, by decide⟩

set_option maxRecDepth 10000 in
/-- C5 (code bug): at the spec's concrete scenario-3 input the CFB
ciphertext is not `block XOR core_transform(iv)` — the core rounds are
applied on top of that XOR — although CFB and OFB encryption do agree with
each other, and CFB/OFB decryption (and `encrypt_iv`) do behave as the
claim states. -/
theorem claim_C5_failing :
    TEA.encrypt_block sampleKey ff8 .CFB (some zeros8)
        ≠ .ok (TEA.zipXor ff8 (TEA.coreEnc sampleKey zeros8)) ∧
    TEA.encrypt_block sampleKey ff8 .CFB (some zeros8)
        = TEA.encrypt_block sampleKey ff8 .OFB (some zeros8) ∧
    TEA.decrypt_block sampleKey ff8 .CFB (some zeros8)
        = .ok (TEA.zipXor ff8 (TEA.coreEnc sampleKey zeros8)) ∧
    TEA.encrypt_iv sampleKey zeros8 = .ok (TEA.coreEnc sampleKey zeros8) := by
  exact ⟨by decide, by decide, by decide, by decide⟩

end Cryptolib
